import Mathlib

/-!
Shallow embedding of the cst2py repository (src/sc.py and src/fields.py).

Conventions of the embedding:
* float scalars and float arrays that the code stores and compares are
  embedded as rationals (every IEEE float is a rational); values that the
  code derives through transcendental operations (sqrt, exp, angle, pi)
  live in `ℝ` / `ℂ`;
* a numpy array of shape (Nf, Nz) is a `CMat`: an explicit shape plus a
  total entry function (entries outside the shape are irrelevant padding);
* numpy's in-place assignment `Ez[:, mask] = 0` is modelled by state
  passing: `kickerLong` / `kickerTrans` return the final contents of the
  caller's array as the first component of their result;
* a Python `raise` is an `Except.error`; `PyError` carries the exception
  class (messages are dropped).
-/

set_option maxHeartbeats 1000000

/-- Exception classes raised by sc.py: `ValueError` and `NotImplementedError`. -/
inductive PyError
  | valueError
  | notImplementedError
  deriving DecidableEq

/-- A 1-D real (float) array: a length and a total entry function (sc.py's
`z` and `f` vectors, fields.py's mesh lines). -/
structure RVec where
  len : ℕ
  entry : ℕ → ℚ

/-- A 2-D complex array of shape (rows, cols) = (len(f), len(z)). -/
structure CMat where
  rows : ℕ
  cols : ℕ
  entry : ℕ → ℕ → ℂ

/-- Index of the first minimum of `w` on `[0, n)`; `numpy.argmin` returns the
first occurrence of the minimum. -/
def argminFirst (w : ℕ → ℚ) : ℕ → ℕ
  | 0 => 0
  | 1 => 0
  | n + 2 => if w (n + 1) < w (argminFirst w (n + 1)) then n + 1 else argminFirst w (n + 1)

/-- Embedding of `np.argmin(np.abs(v - t))` over a vector `v` (fields.py
lines 174/177, sc.py lines 182-183). -/
def argminAbs (v : RVec) (t : ℚ) : ℕ :=
  argminFirst (fun i => |v.entry i - t|) v.len

/-- The beta argument of the kicker functions: the caller may pass a scalar
or a Python list (sc.py lines 259-263 / 353-357). -/
inductive BetaArg
  | scalar (b : ℚ)
  | list (bs : List ℚ)

/-- Embedding of sc.py lines 259-263: a list beta is accepted only when it
has exactly one element, otherwise `ValueError` is raised. -/
def resolveBeta : BetaArg → Except PyError ℚ
  | BetaArg.scalar b => Except.ok b
  | BetaArg.list bs =>
    match bs with
    | [b] => Except.ok b
    | _ => Except.error PyError.valueError

/-- Embedding of sc.py lines 253-254 / 347-348: when
`z_borders[0]**2 + z_borders[1]**2 < 1e-6` the borders are replaced by the
full z extent `[z[0], z[-1]]`. -/
def effBorders (z : RVec) (z_borders : ℚ × ℚ) : ℚ × ℚ :=
  if z_borders.1 ^ 2 + z_borders.2 ^ 2 < 1e-6 then (z.entry 0, z.entry (z.len - 1))
  else z_borders

/-- Embedding of the in-place zeroing `M[:, z < lo] = 0; M[:, z > hi] = 0`
(sc.py lines 265-266 / 359-360). -/
def kickerZero (M : CMat) (z : RVec) (zb : ℚ × ℚ) : CMat :=
  ⟨M.rows, M.cols, fun i j => if z.entry j < zb.1 ∨ zb.2 < z.entry j then 0 else M.entry i j⟩

/-- Speed of light constant of sc.py line 15. -/
def clight : ℝ := 299792458

/-- Proton rest energy in eV, sc.py line 16. -/
def m_proton : ℝ := 938.272046e6

/-- Proton charge-to-mass ratio in C/kg, sc.py line 17. -/
def e_over_m_proton : ℝ := 9.580e7

/-- Embedding of `scipy.integrate.cumtrapz(y, x=x, initial=0)` along one
row: entry 0 is 0 and entry `j` is the trapezoidal sum over the first `j`
intervals. -/
noncomputable def cumtrapz (y : ℕ → ℂ) (x : ℕ → ℝ) : ℕ → ℂ :=
  fun j => Finset.sum (Finset.range j) (fun i => ((x (i + 1) - x i : ℝ) : ℂ) * (y i + y (i + 1)) / 2)

/-- Return record of `kickerLong` (sc.py line 281): fields in the order of
the returned tuple `Rshunt, K, ZP, V, VK, (V0, R, T)`. -/
structure KickerLongResult where
  Rshunt : ℕ → ℕ → ℝ
  K : ℕ → ℕ → ℂ
  ZP : ℕ → ℕ → ℂ
  V : ℕ → ℕ → ℂ
  VK : ℝ
  V0 : ℕ → ℕ → ℂ
  R : ℕ → ℕ → ℝ
  T : ℕ → ℕ → ℂ

/-- Embedding of sc.py lines 268-279, the computation part of `kickerLong`
after validation and zeroing: `Ez` is the already-gated field array. -/
noncomputable def kickerLongCompute (Ez : CMat) (z f : RVec) (Pin_eff b Zc : ℚ) :
    KickerLongResult :=
  let k : ℕ → ℝ := fun i => 2 * Real.pi * (f.entry i : ℝ) / ((b : ℝ) * clight)
  let VK : ℝ := Real.sqrt (2 * (Zc : ℝ) * (Pin_eff : ℝ))
  let V0 : ℕ → ℕ → ℂ := fun i => cumtrapz (fun j => Ez.entry i j) (fun j => (z.entry j : ℝ))
  let V : ℕ → ℕ → ℂ := fun i =>
    cumtrapz (fun j => Complex.exp (Complex.I * (k i : ℂ) * ((z.entry j : ℚ) : ℂ)) * Ez.entry i j)
      (fun j => (z.entry j : ℝ))
  let Kk : ℕ → ℕ → ℂ := fun i j => V i j / (VK : ℂ)
  { Rshunt := fun i j => (Zc : ℝ) * Complex.abs (Kk i j) ^ 2
    K := Kk
    ZP := fun i j => 1 / 2 * (Zc : ℂ) * Kk i j
    V := V
    VK := VK
    V0 := V0
    R := fun i j => Complex.abs (V0 i j) ^ 2 / (2 * (Pin_eff : ℝ))
    T := fun i j => V i j / V0 i j }

/-- Embedding of `kickerLong` (sc.py lines 195-281).  The first component of
the result is the final contents of the caller's `Ez` array (the function
zeroes it in place outside the effective borders); the second component is
the returned tuple or the raised exception. -/
noncomputable def kickerLong (Ez : CMat) (z f : RVec) (Pin_eff : ℚ) (beta : BetaArg)
    (z_borders : ℚ × ℚ) (Zc : ℚ) : CMat × Except PyError KickerLongResult :=
  let zb := effBorders z z_borders
  if Ez.rows = f.len ∧ Ez.cols = z.len then
    match resolveBeta beta with
    | Except.ok b =>
      let Ez' := kickerZero Ez z zb
      (Ez', Except.ok (kickerLongCompute Ez' z f Pin_eff b Zc))
    | Except.error e => (Ez, Except.error e)
  else (Ez, Except.error PyError.valueError)

/-- Return record of `kickerTrans` (sc.py line 373). -/
structure KickerTransResult where
  Ru_shunt : ℕ → ℕ → ℝ
  Ku : ℕ → ℕ → ℂ
  ZPu_prime : ℕ → ℕ → ℂ
  dV_over_du : ℕ → ℕ → ℂ
  VK : ℝ

/-- Embedding of sc.py lines 362-371, the computation part of `kickerTrans`
after validation and zeroing. -/
noncomputable def kickerTransCompute (dEz : CMat) (z f : RVec) (Pin_eff b Zc : ℚ) :
    KickerTransResult :=
  let k : ℕ → ℝ := fun i => 2 * Real.pi * (f.entry i : ℝ) / ((b : ℝ) * clight)
  let omg : ℕ → ℝ := fun i => 2 * Real.pi * (f.entry i : ℝ)
  let VK : ℝ := Real.sqrt (2 * (Zc : ℝ) * (Pin_eff : ℝ))
  let dV : ℕ → ℕ → ℂ := fun i =>
    cumtrapz (fun j => Complex.exp (Complex.I * (k i : ℂ) * ((z.entry j : ℚ) : ℂ)) * dEz.entry i j)
      (fun j => (z.entry j : ℝ))
  let Ku : ℕ → ℕ → ℂ := fun i j =>
    Complex.I * (b : ℂ) * (clight : ℂ) / (omg i : ℂ) * 1 / (VK : ℂ) * dV i j
  { Ru_shunt := fun i j => (Zc : ℝ) * Complex.abs (Ku i j) ^ 2
    Ku := Ku
    ZPu_prime := fun i j => -Complex.I / 2 * (omg i : ℂ) / ((b : ℂ) * (clight : ℂ)) * (Zc : ℂ) * Ku i j
    dV_over_du := dV
    VK := VK }

/-- Embedding of `kickerTrans` (sc.py lines 284-373).  `extra_values = true`
raises `NotImplementedError` as the very first statement, before any
validation or zeroing; otherwise the flow mirrors `kickerLong`. -/
noncomputable def kickerTrans (dEz_du : CMat) (z f : RVec) (Pin_eff : ℚ) (beta : BetaArg)
    (z_borders : ℚ × ℚ) (Zc : ℚ) (extra_values : Bool) :
    CMat × Except PyError KickerTransResult :=
  if extra_values then (dEz_du, Except.error PyError.notImplementedError)
  else
    let zb := effBorders z z_borders
    if dEz_du.rows = f.len ∧ dEz_du.cols = z.len then
      match resolveBeta beta with
      | Except.ok b =>
        let dEz' := kickerZero dEz_du z zb
        (dEz', Except.ok (kickerTransCompute dEz' z f Pin_eff b Zc))
      | Except.error e => (dEz_du, Except.error e)
    else (dEz_du, Except.error PyError.valueError)

/-- Phase correction term of `numpy.unwrap` for the i-th difference:
`ddmod = mod(dd + pi, 2 pi) - pi`, patched to `pi` when it equals `-pi`
with a positive `dd`, and zeroed when `|dd| < pi` (the default discontinuity
threshold). -/
noncomputable def unwrapCorrect (p : ℕ → ℝ) (i : ℕ) : ℝ :=
  let dd := p (i + 1) - p i
  let ddmod0 := (dd + Real.pi) - 2 * Real.pi * (⌊(dd + Real.pi) / (2 * Real.pi)⌋ : ℤ) - Real.pi
  let ddmod := if ddmod0 = -Real.pi ∧ 0 < dd then Real.pi else ddmod0
  if |dd| < Real.pi then 0 else ddmod - dd

/-- Embedding of `numpy.unwrap`: entry 0 is unchanged and entry `k` adds the
accumulated phase corrections of the first `k` differences. -/
noncomputable def unwrap (p : ℕ → ℝ) : ℕ → ℝ :=
  fun k => p k + Finset.sum (Finset.range k) (fun i => unwrapCorrect p i)

/-- Embedding of `rotate_phase` (sc.py lines 163-192).  `A` has shape
(len(f), nz); the linear phase ramp fitted through the unwrapped output-end
phases at the rows nearest `f1` and `f2` is removed, then the whole array is
rotated so the output-end phase at the `f1` row is zero. -/
noncomputable def rotate_phase (A : CMat) (f : RVec) (f1 f2 : ℚ) : CMat :=
  let i1 := argminAbs f f1
  let i2 := argminAbs f f2
  let phi : ℕ → ℝ := unwrap (fun i => (A.entry i (A.cols - 1)).arg)
  let phi1 := phi i1
  let phi2 := phi i2
  let nz := A.cols
  let B : ℕ → ℕ → ℂ := fun i _ =>
    Complex.exp (-Complex.I * (f.entry i : ℂ) / ((f2 : ℂ) - (f1 : ℂ)) * ((phi2 - phi1 : ℝ) : ℂ))
  let out1 : ℕ → ℕ → ℂ := fun i j => A.entry i j * B i j
  let phi0 := (out1 i1 (nz - 1)).arg
  ⟨A.rows, A.cols, fun i j => out1 i j * Complex.exp (-Complex.I * (phi0 : ℂ))⟩

/-- One solver field result of fields.py: three complex 3-D component
arrays; `slice_1d` uses `field3d[2]`, the z component. -/
structure Field3D where
  xcomp : ℕ → ℕ → ℕ → ℂ
  ycomp : ℕ → ℕ → ℕ → ℂ
  zcomp : ℕ → ℕ → ℕ → ℂ

/-- Return record of `slice_1d` (fields.py line 198). -/
structure Slice1DResult where
  z_comps : List (ℕ → ℂ)
  x_grads : List (ℕ → ℂ)
  y_grads : List (ℕ → ℂ)
  x0 : ℚ
  y0 : ℚ

/-- Embedding of `slice_1d` (fields.py lines 171-198): snap `(x0, y0)` to the
nearest mesh lines (first minimum of the absolute distance), take the
z-component profile there, and form one-sided forward-difference gradients
toward the next mesh line in x and in y.  The name lists of the source only
drive the enumeration order, which the field list already fixes here. -/
noncomputable def slice_1d (fields3d : List Field3D) (xlines ylines : RVec) (x0 y0 : ℚ) :
    Slice1DResult :=
  let ix := argminAbs xlines x0
  let x0u := xlines.entry ix
  let dx := xlines.entry (ix + 1) - xlines.entry ix
  let iy := argminAbs ylines y0
  let y0u := ylines.entry iy
  let dy := ylines.entry (iy + 1) - ylines.entry iy
  { z_comps := fields3d.map (fun F => fun iz => F.zcomp ix iy iz)
    x_grads := fields3d.map (fun F => fun iz => (F.zcomp (ix + 1) iy iz - F.zcomp ix iy iz) / ((dx : ℚ) : ℂ))
    y_grads := fields3d.map (fun F => fun iz => (F.zcomp ix (iy + 1) iz - F.zcomp ix iy iz) / ((dy : ℚ) : ℂ))
    x0 := x0u
    y0 := y0u }

/-- Input selector of `beam_converter` (sc.py lines 49-73); `other` stands
for any unrecognized input type string. -/
inductive BeamInputType
  | beta
  | gamma
  | p_over_A
  | Wkin_over_A
  | Brho
  | p
  | Wkin
  | other

/-- Return record of `beam_converter` (sc.py line 91), in tuple order. -/
structure BeamQuantities where
  beta : ℝ
  gamma : ℝ
  p_over_A : ℝ
  Wkin_over_A : ℝ
  Brho : ℝ

/-- Embedding of `beam_converter` (sc.py lines 20-91).  Each branch first
derives `beta` backwards from the given quantity, then fills in exactly the
quantities the source computes forward (the source probes `locals()`; here
each branch spells out the resulting assignments).  `(1-beta**2)**(-0.5)`
is embedded as the reciprocal square root. -/
noncomputable def beam_converter (input_type : BeamInputType) (input_value : ℝ)
    (z_over_A : ℝ) : Except PyError BeamQuantities :=
  match input_type with
  | BeamInputType.beta =>
    let beta := input_value
    let gamma := (Real.sqrt (1 - beta ^ 2))⁻¹
    let p_over_A := gamma * beta * m_proton
    let Wkin_over_A := (gamma - 1) * m_proton
    let Brho := if z_over_A = 0 then 0 else gamma * beta / z_over_A / e_over_m_proton * clight
    Except.ok ⟨beta, gamma, p_over_A, Wkin_over_A, Brho⟩
  | BeamInputType.gamma =>
    let gamma := input_value
    let beta := Real.sqrt (1 - 1 / gamma ^ 2)
    let p_over_A := gamma * beta * m_proton
    let Wkin_over_A := (gamma - 1) * m_proton
    let Brho := if z_over_A = 0 then 0 else gamma * beta / z_over_A / e_over_m_proton * clight
    Except.ok ⟨beta, gamma, p_over_A, Wkin_over_A, Brho⟩
  | BeamInputType.p_over_A =>
    let p_over_A := input_value
    let gamma_times_beta := p_over_A / m_proton
    let beta := 1 / Real.sqrt (1 + 1 / gamma_times_beta ^ 2)
    let gamma := (Real.sqrt (1 - beta ^ 2))⁻¹
    let Wkin_over_A := (gamma - 1) * m_proton
    let Brho := if z_over_A = 0 then 0 else gamma * beta / z_over_A / e_over_m_proton * clight
    Except.ok ⟨beta, gamma, p_over_A, Wkin_over_A, Brho⟩
  | BeamInputType.Wkin_over_A =>
    let Wkin_over_A := input_value
    let gamma := Wkin_over_A / m_proton + 1
    let beta := Real.sqrt (1 - 1 / gamma ^ 2)
    let p_over_A := gamma * beta * m_proton
    let Brho := if z_over_A = 0 then 0 else gamma * beta / z_over_A / e_over_m_proton * clight
    Except.ok ⟨beta, gamma, p_over_A, Wkin_over_A, Brho⟩
  | BeamInputType.Brho =>
    if z_over_A = 0 then Except.error PyError.valueError
    else
      let Brho := input_value
      let gamma_times_beta := Brho * z_over_A * e_over_m_proton / clight
      let beta := 1 / Real.sqrt (1 + 1 / gamma_times_beta ^ 2)
      let gamma := (Real.sqrt (1 - beta ^ 2))⁻¹
      let p_over_A := gamma * beta * m_proton
      let Wkin_over_A := (gamma - 1) * m_proton
      Except.ok ⟨beta, gamma, p_over_A, Wkin_over_A, Brho⟩
  | BeamInputType.p => Except.error PyError.valueError
  | BeamInputType.Wkin => Except.error PyError.valueError
  | BeamInputType.other => Except.error PyError.valueError

/-- Concrete 1x2 field array with all entries 1, for instantiations. -/
def EzW : CMat := ⟨1, 2, fun _ _ => 1⟩

/-- Concrete z vector [0, 1]. -/
def zW : RVec := ⟨2, fun j => (j : ℚ)⟩

/-- Concrete frequency vector [1]. -/
def fW : RVec := ⟨1, fun _ => 1⟩

/-- Concrete 1x4 field array with all entries 1. -/
def Ez4 : CMat := ⟨1, 4, fun _ _ => 1⟩

/-- Concrete z vector [0, 1, 2, 3]. -/
def z4 : RVec := ⟨4, fun j => (j : ℚ)⟩

/-- Concrete frequency vector [1e9]. -/
def f4 : RVec := ⟨1, fun _ => 1e9⟩

/-- Concrete 1x1 array with entry 1. -/
def A1 : CMat := ⟨1, 1, fun _ _ => 1⟩

/-- Concrete frequency vector [5]. -/
def fv5 : RVec := ⟨1, fun _ => 5⟩

/-- Concrete frequency vector [3]. -/
def fv3 : RVec := ⟨1, fun _ => 3⟩

/-- Concrete mesh lines [0, 1, 2]. -/
def xlW : RVec := ⟨3, fun i => (i : ℚ)⟩

/-- Concrete mesh lines [0, 1]. -/
def xlW2 : RVec := ⟨2, fun i => (i : ℚ)⟩

/-- Concrete field whose z component equals the x coordinate (affine with
x-slope 1, y-slope 0). -/
noncomputable def FW : Field3D := ⟨fun _ _ _ => 0, fun _ _ _ => 0, fun i _ _ => ((xlW.entry i : ℚ) : ℂ)⟩

/-! Helper lemmas, shared by several claim theorems. -/

lemma argminFirst_lt (w : ℕ → ℚ) : ∀ n, 0 < n → argminFirst w n < n := by
  intro n
  induction n with
  | zero => intro h; exact absurd h (by omega)
  | succ m ih =>
    intro _
    cases m with
    | zero => simp [argminFirst]
    | succ k =>
      simp only [argminFirst]
      split
      · exact Nat.lt_succ_self _
      · exact Nat.lt_succ_of_lt (ih (Nat.succ_pos k))

lemma argminFirst_min (w : ℕ → ℚ) : ∀ n, ∀ j, j < n → w (argminFirst w n) ≤ w j := by
  intro n
  induction n with
  | zero => intro j h; exact absurd h (Nat.not_lt_zero j)
  | succ m ih =>
    intro j hj
    cases m with
    | zero =>
      have hj0 : j = 0 := by omega
      subst hj0
      simp [argminFirst]
    | succ k =>
      simp only [argminFirst]
      split
      · rename_i hlt
        rcases Nat.lt_succ_iff_lt_or_eq.mp hj with h' | h'
        · exact le_of_lt (lt_of_lt_of_le hlt (ih j h'))
        · subst h'; exact le_refl _
      · rename_i hge
        rcases Nat.lt_succ_iff_lt_or_eq.mp hj with h' | h'
        · exact ih j h'
        · subst h'; exact le_of_not_lt hge

lemma argminFirst_first (w : ℕ → ℚ) : ∀ n, ∀ j, j < argminFirst w n → w (argminFirst w n) < w j := by
  intro n
  induction n with
  | zero => intro j h; simp [argminFirst] at h
  | succ m ih =>
    intro j hj
    cases m with
    | zero => simp [argminFirst] at hj
    | succ k =>
      simp only [argminFirst] at hj ⊢
      by_cases hlt : w (k + 1) < w (argminFirst w (k + 1))
      · rw [if_pos hlt] at hj ⊢
        exact lt_of_lt_of_le hlt (argminFirst_min w (k + 1) j hj)
      · rw [if_neg hlt] at hj ⊢
        exact ih j hj

lemma rvec_asc_le (z : RVec) (hasc : ∀ j, j + 1 < z.len → z.entry j ≤ z.entry (j + 1)) :
    ∀ j k, j ≤ k → k < z.len → z.entry j ≤ z.entry k := by
  intro j k
  induction k with
  | zero =>
    intro hjk _
    have hj0 : j = 0 := by omega
    subst hj0; exact le_refl _
  | succ m ih =>
    intro hjk hk
    rcases Nat.lt_or_ge j (m + 1) with hlt | hge
    · exact le_trans (ih (by omega) (by omega)) (hasc m hk)
    · have hjm : j = m + 1 := by omega
      subst hjm; exact le_refl _

lemma cumtrapz_zero (y : ℕ → ℂ) (x : ℕ → ℝ) : cumtrapz y x 0 = 0 := by
  simp [cumtrapz]

lemma kickerLong_fst_entry (Ez : CMat) (z f : RVec) (Pin b Zc : ℚ) (zb : ℚ × ℚ)
    (hr : Ez.rows = f.len) (hc : Ez.cols = z.len) (i j : ℕ) :
    (kickerLong Ez z f Pin (BetaArg.scalar b) zb Zc).1.entry i j
      = if z.entry j < (effBorders z zb).1 ∨ (effBorders z zb).2 < z.entry j then 0
        else Ez.entry i j := by
  simp [kickerLong, resolveBeta, hr, hc, kickerZero]

lemma kickerTrans_fst_entry (dEz : CMat) (z f : RVec) (Pin b Zc : ℚ) (zb : ℚ × ℚ)
    (hr : dEz.rows = f.len) (hc : dEz.cols = z.len) (i j : ℕ) :
    (kickerTrans dEz z f Pin (BetaArg.scalar b) zb Zc false).1.entry i j
      = if z.entry j < (effBorders z zb).1 ∨ (effBorders z zb).2 < z.entry j then 0
        else dEz.entry i j := by
  simp [kickerTrans, resolveBeta, hr, hc, kickerZero]

lemma arg_mul_exp_neg_arg (w : ℂ) : (w * Complex.exp (-Complex.I * (w.arg : ℂ))).arg = 0 := by
  rcases eq_or_ne w 0 with h | h
  · simp [h]
  · nth_rewrite 1 [← Complex.abs_mul_exp_arg_mul_I w]
    rw [mul_assoc, ← Complex.exp_add]
    have h1 : (w.arg : ℂ) * Complex.I + -Complex.I * (w.arg : ℂ) = 0 := by ring
    rw [h1, Complex.exp_zero, mul_one]
    exact Complex.arg_ofReal_of_nonneg (AbsoluteValue.nonneg Complex.abs w)

/-! Claim theorems. -/

/-- Claim C6: for every coordinate sequence the Field Slicer selects
`ix = argmin|x_lines - x0|` with ties broken by the lowest index (first
minimum), and the returned `x0_used` equals the coordinate of that mesh
line (and symmetrically for y): the selected index is in range, its
distance to the request is minimal, every earlier index is strictly
farther, and the returned snapped coordinates are the mesh-line values at
the selected indices. -/
theorem slice_1d_nearest_first_min (fields3d : List Field3D) (xl yl : RVec) (x0 y0 : ℚ)
    (hx : 1 ≤ xl.len) (hy : 1 ≤ yl.len) :
    argminAbs xl x0 < xl.len
    ∧ (∀ j, j < xl.len → |xl.entry (argminAbs xl x0) - x0| ≤ |xl.entry j - x0|)
    ∧ (∀ j, j < argminAbs xl x0 → |xl.entry (argminAbs xl x0) - x0| < |xl.entry j - x0|)
    ∧ (slice_1d fields3d xl yl x0 y0).x0 = xl.entry (argminAbs xl x0)
    ∧ argminAbs yl y0 < yl.len
    ∧ (∀ j, j < yl.len → |yl.entry (argminAbs yl y0) - y0| ≤ |yl.entry j - y0|)
    ∧ (∀ j, j < argminAbs yl y0 → |yl.entry (argminAbs yl y0) - y0| < |yl.entry j - y0|)
    ∧ (slice_1d fields3d xl yl x0 y0).y0 = yl.entry (argminAbs yl y0) := by
  refine ⟨argminFirst_lt _ _ hx, ?_, ?_, rfl, argminFirst_lt _ _ hy, ?_, ?_, rfl⟩
  · intro j hj; exact argminFirst_min (fun i => |xl.entry i - x0|) xl.len j hj
  · intro j hj; exact argminFirst_first (fun i => |xl.entry i - x0|) xl.len j hj
  · intro j hj; exact argminFirst_min (fun i => |yl.entry i - y0|) yl.len j hj
  · intro j hj; exact argminFirst_first (fun i => |yl.entry i - y0|) yl.len j hj

/-- Witness for C6 at a concrete tie: mesh lines [0, 1] with the request
exactly midway at 1/2; the lower index 0 is chosen and the returned
snapped coordinate is the mesh value 0, not the requested 1/2. -/
theorem slice_1d_nearest_first_min_witness : (slice_1d [] xlW2 xlW2 (1/2) (1/2)).x0 = 0 := by
  have h := slice_1d_nearest_first_min [] xlW2 xlW2 (1/2) (1/2) (by decide) (by decide)
  rw [h.2.2.2.1]
  norm_num [argminAbs, argminFirst, xlW2]

/-- Claim C5: for every mesh with strictly increasing coordinate lines and
every field affine in x and in y (z slope pattern `a*x + b*y + g(z)`), the
Field Slicer's returned gradients equal the forward finite differences
`(E(ix+1,iy,.) - E(ix,iy,.)) / (x_lines[ix+1] - x_lines[ix])` (symmetrically
for y) and hence equal the analytic slopes `a` and `b` exactly. -/
theorem slice_1d_gradient_forward_difference
    (F : Field3D) (xl yl : RVec) (x0 y0 : ℚ) (a b : ℂ) (g : ℕ → ℂ)
    (hxinc : ∀ j, j + 1 < xl.len → xl.entry j < xl.entry (j + 1))
    (hyinc : ∀ j, j + 1 < yl.len → yl.entry j < yl.entry (j + 1))
    (hx : argminAbs xl x0 + 1 < xl.len)
    (hy : argminAbs yl y0 + 1 < yl.len)
    (haff : ∀ i j k, F.zcomp i j k = a * ((xl.entry i : ℚ) : ℂ) + b * ((yl.entry j : ℚ) : ℂ) + g k) :
    ∀ iz,
      ((slice_1d [F] xl yl x0 y0).x_grads.headI iz
          = (F.zcomp (argminAbs xl x0 + 1) (argminAbs yl y0) iz
              - F.zcomp (argminAbs xl x0) (argminAbs yl y0) iz)
            / ((xl.entry (argminAbs xl x0 + 1) - xl.entry (argminAbs xl x0) : ℚ) : ℂ)
        ∧ (slice_1d [F] xl yl x0 y0).x_grads.headI iz = a)
    ∧ ((slice_1d [F] xl yl x0 y0).y_grads.headI iz
          = (F.zcomp (argminAbs xl x0) (argminAbs yl y0 + 1) iz
              - F.zcomp (argminAbs xl x0) (argminAbs yl y0) iz)
            / ((yl.entry (argminAbs yl y0 + 1) - yl.entry (argminAbs yl y0) : ℚ) : ℂ)
        ∧ (slice_1d [F] xl yl x0 y0).y_grads.headI iz = b) := by
  intro iz
  have hdx : xl.entry (argminAbs xl x0 + 1) - xl.entry (argminAbs xl x0) ≠ 0 :=
    sub_ne_zero.mpr (ne_of_gt (hxinc _ hx))
  have hdy : yl.entry (argminAbs yl y0 + 1) - yl.entry (argminAbs yl y0) ≠ 0 :=
    sub_ne_zero.mpr (ne_of_gt (hyinc _ hy))
  have hdxC : ((xl.entry (argminAbs xl x0 + 1) - xl.entry (argminAbs xl x0) : ℚ) : ℂ) ≠ 0 := by
    exact_mod_cast hdx
  have hdyC : ((yl.entry (argminAbs yl y0 + 1) - yl.entry (argminAbs yl y0) : ℚ) : ℂ) ≠ 0 := by
    exact_mod_cast hdy
  refine ⟨⟨rfl, ?_⟩, rfl, ?_⟩
  · show (F.zcomp (argminAbs xl x0 + 1) (argminAbs yl y0) iz
        - F.zcomp (argminAbs xl x0) (argminAbs yl y0) iz)
      / ((xl.entry (argminAbs xl x0 + 1) - xl.entry (argminAbs xl x0) : ℚ) : ℂ) = a
    rw [haff, haff]
    rw [div_eq_iff hdxC]
    push_cast
    ring
  · show (F.zcomp (argminAbs xl x0) (argminAbs yl y0 + 1) iz
        - F.zcomp (argminAbs xl x0) (argminAbs yl y0) iz)
      / ((yl.entry (argminAbs yl y0 + 1) - yl.entry (argminAbs yl y0) : ℚ) : ℂ) = b
    rw [haff, haff]
    rw [div_eq_iff hdyC]
    push_cast
    ring

/-- Witness for C5: mesh lines [0, 1, 2] in both directions and the field
whose z component equals the x coordinate; the returned x gradient is the
analytic slope 1. -/
theorem slice_1d_gradient_forward_difference_witness :
    (slice_1d [FW] xlW xlW 0 0).x_grads.headI 0 = 1 := by
  have h := slice_1d_gradient_forward_difference FW xlW xlW 0 0 1 0 (fun _ => 0)
    (fun j hj => by norm_num [xlW])
    (fun j hj => by norm_num [xlW])
    (by norm_num [argminAbs, argminFirst, xlW])
    (by norm_num [argminAbs, argminFirst, xlW])
    (fun i j k => by simp [FW])
  exact ((h 0).1).2

/-- Claim C10: for every input, calling `kickerTrans` with
`extra_values = true` fails with `NotImplementedError` immediately: the
result is the error and the caller's `dEz_du` array is returned unchanged,
since the raise precedes any validation, zeroing, or computation. -/
theorem kickerTrans_extra_values_not_implemented (dEz_du : CMat) (z f : RVec) (Pin_eff : ℚ)
    (beta : BetaArg) (z_borders : ℚ × ℚ) (Zc : ℚ) :
    kickerTrans dEz_du z f Pin_eff beta z_borders Zc true
      = (dEz_du, Except.error PyError.notImplementedError) := by
  simp [kickerTrans]

/-- Claim C7: for every valid `kickerLong` input (matching shape, scalar
beta) the call succeeds and the cumulative integrals satisfy
`V0[:,0] = 0` and `V[:,0] = 0` in every frequency row. -/
theorem kickerLong_cumulative_initial_zero (Ez : CMat) (z f : RVec) (Pin_eff b Zc : ℚ)
    (zb : ℚ × ℚ) (hr : Ez.rows = f.len) (hc : Ez.cols = z.len) :
    ∃ r, (kickerLong Ez z f Pin_eff (BetaArg.scalar b) zb Zc).2 = Except.ok r
      ∧ ∀ i, r.V0 i 0 = 0 ∧ r.V i 0 = 0 := by
  refine ⟨kickerLongCompute (kickerZero Ez z (effBorders z zb)) z f Pin_eff b Zc, ?_, ?_⟩
  · simp [kickerLong, resolveBeta, hr, hc]
  · intro i
    constructor <;> simp [kickerLongCompute, cumtrapz]

/-- Witness for C7 at the concrete input `Ez = [[1,1]]`, `z = [0,1]`,
`f = [1]`, default borders. -/
theorem kickerLong_cumulative_initial_zero_witness :
    ∃ r, (kickerLong EzW zW fW 1 (BetaArg.scalar (1/2)) (0, 0) 50).2 = Except.ok r
      ∧ ∀ i, r.V0 i 0 = 0 ∧ r.V i 0 = 0 :=
  kickerLong_cumulative_initial_zero EzW zW fW 1 (1/2) 50 (0, 0) rfl rfl

/-- Claim C1, amended: `kickerLong` and `kickerTrans` are side-effect-free
on the caller's field array exactly when the effective `z_borders` exclude
no z sample; the zeroing is applied in place, so each entry of the caller's
array after the call is 0 when its z sample lies strictly outside the
effective borders and is unchanged otherwise; in particular the array is
unchanged whenever no z sample is excluded. -/
theorem kicker_inplace_border_zeroing (Ez dEz : CMat) (z f : RVec) (Pin_eff Zc b : ℚ)
    (zb : ℚ × ℚ) (hr : Ez.rows = f.len) (hc : Ez.cols = z.len)
    (hr2 : dEz.rows = f.len) (hc2 : dEz.cols = z.len) :
    (∀ i j, j < z.len →
      (kickerLong Ez z f Pin_eff (BetaArg.scalar b) zb Zc).1.entry i j
        = if z.entry j < (effBorders z zb).1 ∨ (effBorders z zb).2 < z.entry j then 0
          else Ez.entry i j)
    ∧ (∀ i j, j < z.len →
      (kickerTrans dEz z f Pin_eff (BetaArg.scalar b) zb Zc false).1.entry i j
        = if z.entry j < (effBorders z zb).1 ∨ (effBorders z zb).2 < z.entry j then 0
          else dEz.entry i j)
    ∧ ((∀ j, j < z.len →
          ¬(z.entry j < (effBorders z zb).1 ∨ (effBorders z zb).2 < z.entry j)) →
        (∀ i j, j < z.len →
          (kickerLong Ez z f Pin_eff (BetaArg.scalar b) zb Zc).1.entry i j = Ez.entry i j)
        ∧ (∀ i j, j < z.len →
          (kickerTrans dEz z f Pin_eff (BetaArg.scalar b) zb Zc false).1.entry i j
            = dEz.entry i j)) := by
  refine ⟨?_, ?_, ?_⟩
  · intro i j hj
    exact kickerLong_fst_entry Ez z f Pin_eff b Zc zb hr hc i j
  · intro i j hj
    exact kickerTrans_fst_entry dEz z f Pin_eff b Zc zb hr2 hc2 i j
  · intro hnone
    constructor
    · intro i j hj
      rw [kickerLong_fst_entry Ez z f Pin_eff b Zc zb hr hc i j, if_neg (hnone j hj)]
    · intro i j hj
      rw [kickerTrans_fst_entry dEz z f Pin_eff b Zc zb hr2 hc2 i j, if_neg (hnone j hj)]

/-- Witness for the amended C1: with `z = [0,1]` and borders `(2,3)` the
entry at the excluded column 1 is zeroed in place. -/
theorem kicker_inplace_border_zeroing_witness :
    (kickerLong EzW zW fW 1 (BetaArg.scalar (1/2)) (2, 3) 50).1.entry 0 1 = 0 := by
  have h := (kicker_inplace_border_zeroing EzW EzW zW fW 1 50 (1/2) (2, 3)
    rfl rfl rfl rfl).1 0 1 (by norm_num [zW])
  rw [h, if_pos]
  exact Or.inl (by norm_num [zW, effBorders])

/-- Counterexample for C1 as stated: at `Ez = [[1,1]]`, `z = [0,1]`,
`f = [1]`, `z_borders = (2,3)` (which excludes all of z), the caller's
array does not hold the same values after the call: entry (0,0) was 1 and
is 0 afterwards. -/
theorem kickerLong_mutates_caller_array :
    (kickerLong EzW zW fW 1 (BetaArg.scalar (1/2)) (2, 3) 50).1.entry 0 0
      ≠ EzW.entry 0 0 := by
  have h := kickerLong_fst_entry EzW zW fW 1 (1/2) 50 (2, 3) rfl rfl 0 0
  rw [h, if_pos (Or.inl (by norm_num [zW, effBorders]))]
  simp [EzW]

/-- Claim C4: in both `kickerLong` and `kickerTrans`, a caller-supplied
`z_borders` pair whose squared magnitudes sum to less than 1e-6 is silently
replaced by the full z extent `[z[0], z[-1]]`; with an ascending z vector
such borders therefore never restrict the integration range: the gated
array equals the caller's array at every valid index. -/
theorem small_borders_replaced_by_full_extent (Ez dEz : CMat) (z f : RVec) (Pin_eff Zc b : ℚ)
    (zb : ℚ × ℚ) (hsmall : zb.1 ^ 2 + zb.2 ^ 2 < 1e-6)
    (hasc : ∀ j, j + 1 < z.len → z.entry j ≤ z.entry (j + 1))
    (hr : Ez.rows = f.len) (hc : Ez.cols = z.len)
    (hr2 : dEz.rows = f.len) (hc2 : dEz.cols = z.len) :
    effBorders z zb = (z.entry 0, z.entry (z.len - 1))
    ∧ (∀ i j, j < z.len →
        (kickerLong Ez z f Pin_eff (BetaArg.scalar b) zb Zc).1.entry i j = Ez.entry i j)
    ∧ (∀ i j, j < z.len →
        (kickerTrans dEz z f Pin_eff (BetaArg.scalar b) zb Zc false).1.entry i j
          = dEz.entry i j) := by
  have heff : effBorders z zb = (z.entry 0, z.entry (z.len - 1)) := by
    unfold effBorders
    rw [if_pos hsmall]
  have hnone : ∀ j, j < z.len →
      ¬(z.entry j < (effBorders z zb).1 ∨ (effBorders z zb).2 < z.entry j) := by
    intro j hj
    rw [heff]
    rintro (hbad | hbad)
    · exact absurd hbad (not_lt.mpr (rvec_asc_le z hasc 0 j (Nat.zero_le j) hj))
    · exact absurd hbad (not_lt.mpr (rvec_asc_le z hasc j (z.len - 1) (by omega) (by omega)))
  refine ⟨heff, ?_, ?_⟩
  · intro i j hj
    rw [kickerLong_fst_entry Ez z f Pin_eff b Zc zb hr hc i j, if_neg (hnone j hj)]
  · intro i j hj
    rw [kickerTrans_fst_entry dEz z f Pin_eff b Zc zb hr2 hc2 i j, if_neg (hnone j hj)]

/-- Witness for C4: the default sentinel borders `(0,0)` are replaced by
the full extent `[0, 1]` of `z = [0,1]` and the array entry (0,0) is left
unchanged. -/
theorem small_borders_replaced_by_full_extent_witness :
    effBorders zW (0, 0) = (0, 1)
    ∧ (kickerLong EzW zW fW 1 (BetaArg.scalar (1/2)) (0, 0) 50).1.entry 0 0 = EzW.entry 0 0 := by
  have h := small_borders_replaced_by_full_extent EzW EzW zW fW 1 50 (1/2) (0, 0)
    (by norm_num)
    (fun j hj => by
      have hj0 : j = 0 := by
        have : zW.len = 2 := rfl
        omega
      subst hj0
      norm_num [zW])
    rfl rfl rfl rfl
  refine ⟨?_, h.2.1 0 0 (by norm_num [zW])⟩
  rw [h.1]
  norm_num [zW]

/-- Claim C3 (code behavior at the failing input): calling `kickerLong`
with the zero-width border `z_borders = (3/2, 3/2)` on `Ez = [[1,1,1,1]]`,
`z = [0,1,2,3]`, `f = [1e9]` does not fail: it returns `ok`, the gate
zeroes every z sample (none equals 3/2), and the resulting cumulative
voltage `V0` is silently all-zero — no InvalidRange error is raised. -/
theorem kickerLong_zero_width_border_silent :
    (∃ r, (kickerLong Ez4 z4 f4 1 (BetaArg.scalar (1/2)) (3/2, 3/2) 50).2 = Except.ok r
       ∧ ∀ j, j < 4 → r.V0 0 j = 0)
    ∧ ∀ j, j < 4 →
        (kickerLong Ez4 z4 f4 1 (BetaArg.scalar (1/2)) (3/2, 3/2) 50).1.entry 0 j = 0 := by
  have hzero : ∀ jj, jj < 4 → (kickerZero Ez4 z4 (effBorders z4 (3/2, 3/2))).entry 0 jj = 0 := by
    intro jj hjj
    interval_cases jj <;> norm_num [kickerZero, effBorders, Ez4, z4]
  constructor
  · refine ⟨kickerLongCompute (kickerZero Ez4 z4 (effBorders z4 (3/2, 3/2))) z4 f4 1 (1/2) 50,
      ?_, ?_⟩
    · simp [kickerLong, resolveBeta, Ez4, z4, f4]
    · intro j hj
      simp only [kickerLongCompute, cumtrapz]
      apply Finset.sum_eq_zero
      intro i hi
      have hij : i < j := Finset.mem_range.mp hi
      rw [hzero i (by omega), hzero (i + 1) (by omega)]
      simp
  · intro j hj
    rw [kickerLong_fst_entry Ez4 z4 f4 1 (1/2) 50 (3/2, 3/2) rfl rfl 0 j]
    exact hzero j hj

/-- Claim C8: for every (Nf, Nz) array with nonzero last column and every
pair of distinct reference frequencies, the Phase Normalizer's output has
phase exactly zero in the last column at the row `i1` nearest to `f1`: the
final global rotation divides out precisely the output-end phase at `i1`. -/
theorem rotate_phase_output_end_phase_zero (A : CMat) (f : RVec) (f1 f2 : ℚ)
    (hrows : A.rows = f.len) (hlen : 1 ≤ f.len) (hne : f1 ≠ f2)
    (hcol : ∀ i, i < A.rows → A.entry i (A.cols - 1) ≠ 0) :
    ((rotate_phase A f f1 f2).entry (argminAbs f f1) (A.cols - 1)).arg = 0 := by
  exact arg_mul_exp_neg_arg _

/-- Witness for C8: the 1x1 array [[1]] with frequency vector [3] and
references 3 and 4. -/
theorem rotate_phase_output_end_phase_zero_witness :
    ((rotate_phase A1 fv3 3 4).entry (argminAbs fv3 3) (A1.cols - 1)).arg = 0 :=
  rotate_phase_output_end_phase_zero A1 fv3 3 4 rfl (by norm_num [fv3])
    (by norm_num) (fun i _ => one_ne_zero)

/-- Claim C2 (code behavior at the failing input): calling `rotate_phase`
with equal reference frequencies `f1 = f2 = 5` on the 1x1 array [[1]] with
frequency vector [5] raises no error at all: the function returns normally
(here with value 1; the float code divides by `f2 - f1 = 0`, silenced by
`np.seterr`). -/
theorem rotate_phase_equal_refs_no_error :
    (rotate_phase A1 fv5 5 5).entry 0 0 = 1 := by
  simp [rotate_phase, unwrap, argminAbs, argminFirst, A1, fv5]

/-- Claim C9: for every `beta` in (0,1) and `z_over_A > 0`, converting
`beta` to `Brho` with the Beam Parameter Converter and converting that
`Brho` back with the same `z_over_A` recovers the original `beta` exactly
(the round-trip identity holds with no tolerance in real arithmetic). -/
theorem beam_converter_beta_brho_roundtrip (b zA : ℝ) (h0 : 0 < b) (h1 : b < 1) (hz : 0 < zA) :
    ∃ q, beam_converter BeamInputType.beta b zA = Except.ok q ∧
      ∃ q2, beam_converter BeamInputType.Brho q.Brho zA = Except.ok q2 ∧ q2.beta = b := by
  have hzne : zA ≠ 0 := ne_of_gt hz
  have hs : (0:ℝ) < 1 - b ^ 2 := by nlinarith
  have hspos : 0 < Real.sqrt (1 - b ^ 2) := Real.sqrt_pos.mpr hs
  have hsne : Real.sqrt (1 - b ^ 2) ≠ 0 := ne_of_gt hspos
  have hbne : b ≠ 0 := ne_of_gt h0
  have hene : e_over_m_proton ≠ 0 := by norm_num [e_over_m_proton]
  have hcne : clight ≠ 0 := by norm_num [clight]
  refine ⟨_, rfl, ?_⟩
  show ∃ q2, beam_converter BeamInputType.Brho
      (if zA = 0 then (0:ℝ) else (Real.sqrt (1 - b ^ 2))⁻¹ * b / zA / e_over_m_proton * clight) zA
        = Except.ok q2 ∧ q2.beta = b
  rw [if_neg hzne]
  simp only [beam_converter]
  rw [if_neg hzne]
  refine ⟨_, rfl, ?_⟩
  show 1 / Real.sqrt (1 + 1 /
      ((Real.sqrt (1 - b ^ 2))⁻¹ * b / zA / e_over_m_proton * clight * zA * e_over_m_proton
        / clight) ^ 2) = b
  have hgtb : (Real.sqrt (1 - b ^ 2))⁻¹ * b / zA / e_over_m_proton * clight * zA
      * e_over_m_proton / clight = b / Real.sqrt (1 - b ^ 2) := by
    field_simp
    ring
  rw [hgtb]
  have hsq : Real.sqrt (1 - b ^ 2) ^ 2 = 1 - b ^ 2 := Real.sq_sqrt hs.le
  have h3 : 1 + 1 / (b / Real.sqrt (1 - b ^ 2)) ^ 2 = 1 / b ^ 2 := by
    rw [div_pow, hsq]
    field_simp
  rw [h3, one_div (b ^ 2), Real.sqrt_inv, Real.sqrt_sq h0.le, one_div, inv_inv]

/-- Witness for C9 at `beta = 1/2`, `z_over_A = 1`. -/
theorem beam_converter_beta_brho_roundtrip_witness :
    ∃ q, beam_converter BeamInputType.beta (1/2) 1 = Except.ok q ∧
      ∃ q2, beam_converter BeamInputType.Brho q.Brho 1 = Except.ok q2 ∧ q2.beta = 1/2 :=
  beam_converter_beta_brho_roundtrip (1/2) 1 (by norm_num) (by norm_num) (by norm_num)
